import Mathlib

set_option maxHeartbeats 1000000

/-!
Verification development for the path-finding-2d navigation-mesh engine
(src/src/nav-mesh-2d.ts, the variant exposing the ray-clip flag: the one whose
pointsEqual uses epsilon 1e-9 and whose triArea2 is
(c.x-a.x)*(b.y-a.y) - (b.x-a.x)*(c.y-a.y)).

Coordinates are embedded as rationals.  The external geometry provider
(poly-math-2d) is not part of the repository; its members used by the engine
(pointInTriangle, getDistanceSquared, getDistanceQuick) are modelled from the
specification.  getDistanceQuick is the Euclidean metric, which is not exactly
representable over the rationals, so every function of the engine that consumes
it is parametrised by an arbitrary distance function.
-/

structure Point where
  x : ℚ
  y : ℚ
deriving DecidableEq, Repr

/-- Epsilon used by pointsEqual and isPointOnSegment (1e-9 in the source). -/
def eps : ℚ := 1 / 1000000000

/-- Epsilon used for degenerate-triangle denominators (1e-10 in the source). -/
def epsDegenerate : ℚ := 1 / 10000000000

/-- Epsilon used for the segment-intersection parallel gate (1e-8). -/
def epsParallel : ℚ := 1 / 100000000

/-- NavMesh2d.pointsEqual: componentwise absolute comparison below eps. -/
def pointsEqual (p1 p2 : Point) : Bool :=
  decide (|p1.x - p2.x| < eps ∧ |p1.y - p2.y| < eps)

/-- NavMesh2d.triArea2 of the embedded variant:
    (c.x - a.x) * (b.y - a.y) - (b.x - a.x) * (c.y - a.y). -/
def triArea2 (a b c : Point) : ℚ :=
  (c.x - a.x) * (b.y - a.y) - (b.x - a.x) * (c.y - a.y)

/-- The sign convention stated by the spec (section 4.1): positive means c lies
    to the left of the directed segment a to b.  The embedded engine's triArea2
    above is exactly this quantity with the sign flipped. -/
def signedArea2Spec (a b c : Point) : ℚ :=
  (b.x - a.x) * (c.y - a.y) - (c.x - a.x) * (b.y - a.y)

/-- Modelled from the spec: Point.getDistanceSquared of the external provider
    poly-math-2d (section 6.1), squared Euclidean distance. -/
def getDistanceSquared (p q : Point) : ℚ :=
  (p.x - q.x) * (p.x - q.x) + (p.y - q.y) * (p.y - q.y)

/-- NavMesh2d.closestPointOnSegment: projection of p on segment a-b clamped
    to the segment. -/
def closestPointOnSegment (p a b : Point) : Point :=
  let abx := b.x - a.x
  let aby := b.y - a.y
  let atb2 := abx * abx + aby * aby
  if atb2 = 0 then a
  else
    let dt := (p.x - a.x) * abx + (p.y - a.y) * aby
    let t := max 0 (min 1 (dt / atb2))
    ⟨a.x + abx * t, a.y + aby * t⟩

/-- NavMesh2d.isPointOnSegment: collinearity within eps plus projection range
    check (the source returns false when abs cross exceeds 1e-9, or when the
    dot product falls outside the interval from 0 to the squared length). -/
def isPointOnSegment (p a b : Point) : Bool :=
  let abx := b.x - a.x
  let aby := b.y - a.y
  let apx := p.x - a.x
  let apy := p.y - a.y
  let cross := abx * apy - aby * apx
  if eps < |cross| then false
  else
    let dt := apx * abx + apy * aby
    if dt < 0 ∨ abx * abx + aby * aby < dt then false else true

/-- Modelled from the spec: the external pointInTriangle of poly-math-2d
    (section 4.1, barycentric coordinates; this is also exactly the inline
    implementation of the first source variant, lines 46-57). -/
def pointInTriangle (p : Point) (t : Point × Point × Point) : Bool :=
  let v0 := t.1
  let v1 := t.2.1
  let v2 := t.2.2
  let denom := (v1.y - v2.y) * (v0.x - v2.x) + (v2.x - v1.x) * (v0.y - v2.y)
  if |denom| < epsDegenerate then false
  else
    let a := ((v1.y - v2.y) * (p.x - v2.x) + (v2.x - v1.x) * (p.y - v2.y)) / denom
    let b := ((v2.y - v0.y) * (p.x - v2.x) + (v0.x - v2.x) * (p.y - v2.y)) / denom
    decide (0 ≤ a ∧ 0 ≤ b ∧ 0 ≤ 1 - a - b)

/-- NavMesh2d.getSegmentIntersectionPoint: parametric segment intersection,
    parallel gate 1e-8, inclusive parameter range. -/
def getSegmentIntersectionPoint (p1 q1 p2 q2 : Point) : Option Point :=
  let rx := q1.x - p1.x
  let ry := q1.y - p1.y
  let sx := q2.x - p2.x
  let sy := q2.y - p2.y
  let rxs := rx * sy - ry * sx
  if |rxs| < epsParallel then none
  else
    let qpx := p2.x - p1.x
    let qpy := p2.y - p1.y
    let t := (qpx * sy - qpy * sx) / rxs
    let u := (qpx * ry - qpy * rx) / rxs
    if 0 ≤ t ∧ t ≤ 1 ∧ 0 ≤ u ∧ u ≤ 1 then
      some ⟨p1.x + t * rx, p1.y + t * ry⟩
    else none

/-- A TPolygon of poly-math-2d as consumed by the engine: a triangle record
    with its vertex triple, precomputed centre and neighbour references.
    Reference identity of the JavaScript objects is modelled by indices into
    the mesh's triangle store; connections hold neighbour indices. -/
structure Tri where
  mainTriangle : Point × Point × Point
  centerPoint : Point
  connections : List Nat
deriving DecidableEq, Repr

/-- A Polygon of poly-math-2d: outer ring, hole rings, and the indices of the
    triangles covering it. -/
structure Polygon where
  points : List Point
  holes : List (List Point)
  tpolygons : List Nat
deriving DecidableEq, Repr

/-- The PolygonMap together with the triangle store backing the reference
    identities. -/
structure Mesh where
  polygons : List Polygon
  store : List Tri
deriving DecidableEq, Repr

/-- NavMesh2d.buildNavMesh: the flat triangle list, concatenating every
    polygon's triangles in polygon order. -/
def navTriangles (m : Mesh) : List Nat :=
  m.polygons.flatMap (fun p => p.tpolygons)

/-- NavMesh2d.isPointInTriangle of the embedded variant: the provider's
    barycentric test, then the three edge-membership checks. -/
def isPointInTriangle (p : Point) (t : Tri) : Bool :=
  pointInTriangle p t.mainTriangle ||
    (isPointOnSegment p t.mainTriangle.1 t.mainTriangle.2.1 ||
      (isPointOnSegment p t.mainTriangle.2.1 t.mainTriangle.2.2 ||
        isPointOnSegment p t.mainTriangle.2.2 t.mainTriangle.1))

/-- NavMesh2d.findTriangleContainingPoint: first containing triangle in the
    flat list (an index whose store lookup fails never contains anything;
    in the JavaScript source every reference is a live object). -/
def findTriangleContainingPoint (m : Mesh) (p : Point) : Option Nat :=
  (navTriangles m).find? (fun id =>
    match m.store.get? id with
    | some t => isPointInTriangle p t
    | none => false)

/-- NavMesh2d.isPointInNavMesh. -/
def isPointInNavMesh (m : Mesh) (p : Point) : Bool :=
  (findTriangleContainingPoint m p).isSome

/-- The consecutive edges of a ring with wraparound, as iterated by the source
    (index i paired with index (i+1) mod length). -/
def ringEdges (pts : List Point) : List (Point × Point) :=
  (List.range pts.length).map (fun i =>
    (pts.getD i ⟨0, 0⟩, pts.getD ((i + 1) % pts.length) ⟨0, 0⟩))

/-- One step of the running minimum of findClosestPointInPolygon
    (checkPoint in the source); none models the initial Infinity. -/
def checkCloser (target : Point) (acc : Point × Option ℚ) (p : Point) :
    Point × Option ℚ :=
  let d := getDistanceSquared target p
  match acc.2 with
  | none => (p, some d)
  | some m => if d < m then (p, some d) else acc

/-- The candidate points enumerated by findClosestPointInPolygon, in source
    order: outer vertices, then closest points on outer edges, then closest
    points on each hole's edges. -/
def closestCandidates (target : Point) (poly : Polygon) : List Point :=
  poly.points
    ++ (ringEdges poly.points).map (fun e => closestPointOnSegment target e.1 e.2)
    ++ poly.holes.flatMap (fun h =>
        (ringEdges h).map (fun e => closestPointOnSegment target e.1 e.2))

/-- NavMesh2d.findClosestPointInPolygon of the embedded variant. -/
def findClosestPointInPolygon (target : Point) (poly : Polygon) : Point :=
  ((closestCandidates target poly).foldl (checkCloser target) (target, none)).1

/-- The intersection points found by findIntersectionWithPolygon, in source
    order (outer ring edges, then each hole ring's edges). -/
def intersectionCandidates (p1 q1 : Point) (poly : Polygon) : List Point :=
  (ringEdges poly.points).filterMap
      (fun e => getSegmentIntersectionPoint p1 q1 e.1 e.2)
    ++ poly.holes.flatMap (fun h =>
        (ringEdges h).filterMap (fun e => getSegmentIntersectionPoint p1 q1 e.1 e.2))

/-- One step of the running minimum of findIntersectionWithPolygon; none
    models the initial Infinity. -/
def interStep (p1 : Point) (acc : Option Point) (c : Point) : Option Point :=
  match acc with
  | none => some c
  | some b =>
      if getDistanceSquared p1 c < getDistanceSquared p1 b then some c else acc

/-- NavMesh2d.findIntersectionWithPolygon: the intersection nearest p1 by
    squared distance (strict improvement, first minimum wins). -/
def findIntersectionWithPolygon (p1 q1 : Point) (poly : Polygon) : Option Point :=
  (intersectionCandidates p1 q1 poly).foldl (interStep p1) none

/-- The goal-projection step of findPath when the goal is outside the mesh:
    ray-clip mode when the flag is set (with closest-boundary fallback),
    closest-boundary mode otherwise.  This is the inline block of
    NavMesh2d.findPath, factored out. -/
def projectGoal (clip : Bool) (a b : Point) (poly : Polygon) : Point :=
  if clip then
    match findIntersectionWithPolygon a b poly with
    | some ip => ip
    | none => findClosestPointInPolygon b poly
  else findClosestPointInPolygon b poly

structure Portal where
  left : Point
  right : Point
deriving DecidableEq, Repr

def triVerts (t : Tri) : List Point :=
  [t.mainTriangle.1, t.mainTriangle.2.1, t.mainTriangle.2.2]

/-- The shared-vertex collection of NavMesh2d.getSharedEdge: vertices of the
    first triangle having an eps-equal vertex in the second, in first-triangle
    order (the inner break of the source is the existential). -/
def sharedPoints (t1 t2 : Tri) : List Point :=
  (triVerts t1).filter (fun p => (triVerts t2).any (fun q => pointsEqual p q))

/-- NavMesh2d.getSharedEdge: requires exactly two shared vertices and orients
    them by the sign of triArea2 at the first triangle's centre. -/
def getSharedEdge (t1 t2 : Tri) : Option Portal :=
  match sharedPoints t1 t2 with
  | [s0, s1] =>
      let cross := triArea2 t1.centerPoint s0 s1
      if 0 < cross then some ⟨s0, s1⟩ else some ⟨s1, s0⟩
  | _ => none

def adjPairs : List Nat → List (Nat × Nat)
  | a :: b :: rest => (a, b) :: adjPairs (b :: rest)
  | _ => []

/-- NavMesh2d.getPortalEdges: shared edges of consecutive corridor triangles,
    silently dropping pairs without exactly two shared vertices. -/
def getPortalEdges (m : Mesh) (ids : List Nat) : List Portal :=
  (adjPairs ids).filterMap (fun pr =>
    match m.store.get? pr.1, m.store.get? pr.2 with
    | some t1, some t2 => getSharedEdge t1 t2
    | _, _ => none)

/-- Funnel loop state.  Indices are stored shifted by one so that the source's
    initial value -1 becomes 0 (the source restart sets i to the stored index
    and the for-increment then adds one; here the shifted stored index is used
    directly as the next loop index). -/
structure FSt where
  path : List Point
  apex : Point
  apexIdx : Nat
  lPt : Point
  lIdx : Nat
  rPt : Point
  rIdx : Nat
deriving DecidableEq, Repr

/-- The left-side update of one funnel iteration (the second if-block of
    NavMesh2d.funnel), returning the next loop index and state. -/
def leftUpdate (pL : Point) (i : Nat) (st : FSt) : Nat × FSt :=
  if 0 ≤ triArea2 st.apex st.lPt pL then
    if pointsEqual st.apex st.lPt = true ∨ triArea2 st.apex st.rPt pL < 0 then
      (i + 1, { st with lPt := pL, lIdx := i + 1 })
    else
      (st.rIdx,
        { st with
          path := st.path ++ [st.rPt]
          apex := st.rPt
          apexIdx := st.rIdx
          lPt := st.rPt
          lIdx := st.rIdx })
  else (i + 1, st)

/-- One full funnel iteration: the right-side update (first if-block of
    NavMesh2d.funnel), whose restart skips the left side, otherwise followed by
    the left-side update on the possibly tightened state. -/
def funnelStep (i : Nat) (st : FSt) (pL pR : Point) : Nat × FSt :=
  if triArea2 st.apex st.rPt pR ≤ 0 then
    if pointsEqual st.apex st.rPt = true ∨ 0 < triArea2 st.apex st.lPt pR then
      leftUpdate pL i { st with rPt := pR, rIdx := i + 1 }
    else
      (st.lIdx,
        { st with
          path := st.path ++ [st.lPt]
          apex := st.lPt
          apexIdx := st.lIdx
          rPt := st.lPt
          rIdx := st.lIdx })
  else leftUpdate pL i st

/-- The fuelled funnel loop.  The boolean records normal completion; the fuel
    chosen by funnel is proved sufficient below, so the fuel-exhaustion branch
    is unreachable and the function agrees with the source's while loop. -/
def funnelLoop (ps : List Portal) : Nat → Nat → FSt → List Point × Bool
  | 0, _, st => (st.path, false)
  | fuel + 1, i, st =>
    if h : i < ps.length then
      let pr := ps[i]
      let nx := funnelStep i st pr.left pr.right
      funnelLoop ps fuel nx.1 nx.2
    else (st.path, true)

def funnelFuel (n : Nat) : Nat := (n + 2) * (n + 2)

/-- The final conditional append shared by the tail of NavMesh2d.funnel and of
    NavMesh2d.findPath: append g unless the (always existing) last point is
    already eps-equal to it. -/
def appendIfFar (l : List Point) (g : Point) : List Point :=
  match l.getLast? with
  | some lp => if pointsEqual lp g = true then l else l ++ [g]
  | none => l

/-- NavMesh2d.funnel.  The source's initial null-check on the portal array
    never fires (getPortalEdges always returns an array, and an empty array is
    truthy in JavaScript), so it has no counterpart here. -/
def funnel (m : Mesh) (start goal : Point) (ids : List Nat) : List Point :=
  let ps := getPortalEdges m ids ++ [⟨goal, goal⟩]
  let st0 : FSt := ⟨[start], start, 0, start, 0, start, 0⟩
  appendIfFar (funnelLoop ps (funnelFuel ps.length) 0 st0).1 goal

/-- A* search node (interface PathNode); the parent reference is the parent
    triangle's index, resolved through the node map. -/
structure PathNode where
  gCost : ℚ
  hCost : ℚ
  fCost : ℚ
  parent : Option Nat
deriving DecidableEq, Repr

/-- Association lookup for the node map (JavaScript Map.get on triangle
    references, which are indices here). -/
def lookupNode : List (Nat × PathNode) → Nat → Option PathNode
  | [], _ => none
  | (k, v) :: rest, id => if k = id then some v else lookupNode rest id

/-- Membership of an index in an index list (JavaScript Set.has and
    Array.includes on triangle references). -/
def natMem (x : Nat) : List Nat → Bool
  | [] => false
  | y :: rest => if y = x then true else natMem x rest

def sortKey (nm : List (Nat × PathNode)) (id : Nat) : ℚ :=
  match lookupNode nm id with
  | some n => n.fCost
  | none => 0

/-- Stable insertion by fCost: an element is placed after all entries whose key
    is not larger, matching the stable JavaScript Array.prototype.sort. -/
def insertByKey (k : Nat → ℚ) (x : Nat) : List Nat → List Nat
  | [] => [x]
  | y :: ys => if k x < k y then x :: y :: ys else y :: insertByKey k x ys

def sortByKey (k : Nat → ℚ) (l : List Nat) : List Nat :=
  l.foldl (fun acc x => insertByKey k x acc) []

def updateNode (nm : List (Nat × PathNode)) (id : Nat) (n : PathNode) :
    List (Nat × PathNode) :=
  nm.map (fun pr => if pr.1 = id then (id, n) else pr)

/-- Neighbour processing of one A* expansion (the connections loop of
    NavMesh2d.findTrianglePath). -/
def expandNeighbor (dist : Point → Point → ℚ) (m : Mesh) (endCenter : Point)
    (curId : Nat) (curG : ℚ) (closed : List Nat)
    (acc : List Nat × List (Nat × PathNode)) (nbId : Nat) :
    List Nat × List (Nat × PathNode) :=
  if natMem nbId closed then acc
  else
    match m.store.get? nbId, m.store.get? curId with
    | some nbTri, some curTri =>
      let tg := curG + dist curTri.centerPoint nbTri.centerPoint
      match lookupNode acc.2 nbId with
      | none =>
          let h := dist nbTri.centerPoint endCenter
          (acc.1 ++ [nbId], acc.2 ++ [(nbId, ⟨tg, h, tg + h, some curId⟩)])
      | some old =>
          if tg < old.gCost then
            (acc.1, updateNode acc.2 nbId ⟨tg, old.hCost, tg + old.hCost, some curId⟩)
          else acc
    | _, _ => acc

/-- Path reconstruction: walk parent links from the goal, excluding the start
    node (the one without a parent), prepending along the way. -/
def walkParents (nm : List (Nat × PathNode)) : Nat → Nat → List Nat → List Nat
  | 0, _, acc => acc
  | fuel + 1, id, acc =>
    match lookupNode nm id with
    | some node =>
      match node.parent with
      | some pid => walkParents nm fuel pid (id :: acc)
      | none => acc
    | none => acc

/-- The A* while loop of NavMesh2d.findTrianglePath, fuelled.  Each loop
    iteration pops one node and every triangle enters the open set at most
    once, so store length plus two units of fuel always complete the loop. -/
def astarLoop (dist : Point → Point → ℚ) (m : Mesh) (endId : Nat)
    (endCenter : Point) :
    Nat → List Nat → List (Nat × PathNode) → List Nat → List Nat
  | 0, _, _, _ => []
  | fuel + 1, opn, nm, closed =>
    match sortByKey (sortKey nm) opn with
    | [] => []
    | current :: rest =>
      if current = endId then walkParents nm (nm.length + 1) current []
      else
        let curG :=
          match lookupNode nm current with
          | some n => n.gCost
          | none => 0
        let st :=
          match m.store.get? current with
          | some curTri =>
              curTri.connections.foldl
                (expandNeighbor dist m endCenter current curG closed) (rest, nm)
          | none => (rest, nm)
        astarLoop dist m endId endCenter fuel st.1 st.2 (closed ++ [current])

/-- NavMesh2d.findTrianglePath. -/
def findTrianglePath (dist : Point → Point → ℚ) (m : Mesh)
    (startId endId : Nat) : List Nat :=
  match m.store.get? startId, m.store.get? endId with
  | some sTri, some eTri =>
    let h0 := dist sTri.centerPoint eTri.centerPoint
    astarLoop dist m endId eTri.centerPoint (m.store.length + 2)
      [startId] [(startId, ⟨0, h0, h0, none⟩)] []
  | _, _ => []

/-- The polygon owning a triangle (polygonMap.polygons.find in findPath). -/
def polyOf (m : Mesh) (id : Nat) : Option Polygon :=
  m.polygons.find? (fun p => natMem id p.tpolygons)

/-- The adjacency fallback test of findPath
    (startTriangle.connections.some (c.neighbor equal to targetTriangle)). -/
def isNeighbor (m : Mesh) (s t : Nat) : Bool :=
  match m.store.get? s with
  | some tri => natMem t tri.connections
  | none => false

/-- The goal-resolution stage of NavMesh2d.findPath: the target point and its
    triangle, or none when the query must return the empty path because the
    owning polygon is missing or the projected point locates to no triangle. -/
def resolveGoal (m : Mesh) (startId : Nat) (a b : Point) (clip : Bool) :
    Option (Point × Nat) :=
  match findTriangleContainingPoint m b with
  | some endId => some (b, endId)
  | none =>
    match polyOf m startId with
    | none => none
    | some poly =>
      let tp := projectGoal clip a b poly
      match findTriangleContainingPoint m tp with
      | none => none
      | some tId => some (tp, tId)

/-- NavMesh2d.findPath of the embedded variant (parameter clip is the source's
    closestToStart flag, called clipToBoundary by the spec). -/
def findPath (dist : Point → Point → ℚ) (m : Mesh) (a b : Point)
    (clip : Bool) : List Point :=
  match findTriangleContainingPoint m a with
  | none => []
  | some startId =>
    match resolveGoal m startId a b clip with
    | none => []
    | some (tp, tId) =>
      if startId = tId then [a, tp]
      else
        match findTrianglePath dist m startId tId with
        | [] => if isNeighbor m startId tId then [a, tp] else []
        | t :: ts => appendIfFar (funnel m a tp (startId :: t :: ts)) tp

/-! ## Basic algebraic facts about the primitives -/

theorem pointsEqual_refl (p : Point) : pointsEqual p p = true := by
  simp [pointsEqual, eps]

theorem triArea2_self_left (a c : Point) : triArea2 a a c = 0 := by
  unfold triArea2
  ring

theorem triArea2_eq_neg_spec (a b c : Point) :
    triArea2 a b c = -signedArea2Spec a b c := by
  unfold triArea2 signedArea2Spec
  ring

theorem signedArea2Spec_swap (a b c : Point) :
    signedArea2Spec a c b = -signedArea2Spec a b c := by
  unfold signedArea2Spec
  ring

/-- C8: the point-equality predicate of the engine holds exactly when both
    coordinate differences are below 1e-9 in absolute value. -/
theorem pointsEqual_iff (p q : Point) :
    pointsEqual p q = true ↔
      |p.x - q.x| < 1 / 1000000000 ∧ |p.y - q.y| < 1 / 1000000000 := by
  simp [pointsEqual, eps]

/-- Controlled single-step unfolding of the funnel loop. -/
theorem funnelLoop_step_eval (ps : List Portal) (fuel i : Nat) (st : FSt)
    (h : i < ps.length) (nx : Nat × FSt)
    (hs : funnelStep i st (ps[i].left) (ps[i].right) = nx) :
    funnelLoop ps (fuel + 1) i st = funnelLoop ps fuel nx.1 nx.2 := by
  conv_lhs => rw [funnelLoop.eq_def]
  simp only [dif_pos h, hs]

/-- The funnel loop exits normally once the index leaves the portal list. -/
theorem funnelLoop_done (ps : List Portal) (fuel i : Nat) (st : FSt)
    (h : ¬ i < ps.length) :
    funnelLoop ps (fuel + 1) i st = (st.path, true) := by
  conv_lhs => rw [funnelLoop.eq_def]
  simp only [dif_neg h]

/-- Amended C4: getSharedEdge orients the two shared vertices so that the
    spec-convention signed area of (centroid, left, right) is nonpositive
    (equivalently, the source's own flipped triArea2 is nonnegative): the pair
    is kept in discovery order exactly when the spec-convention signed area of
    (centroid, shared0, shared1) is negative, and swapped otherwise. -/
theorem getSharedEdge_orientation (t1 t2 : Tri) (s0 s1 : Point) (p : Portal)
    (hs : sharedPoints t1 t2 = [s0, s1])
    (hp : getSharedEdge t1 t2 = some p) :
    signedArea2Spec t1.centerPoint p.left p.right ≤ 0 ∧
    (signedArea2Spec t1.centerPoint s0 s1 < 0 → p = ⟨s0, s1⟩) ∧
    (0 ≤ signedArea2Spec t1.centerPoint s0 s1 → p = ⟨s1, s0⟩) := by
  unfold getSharedEdge at hp
  rw [hs] at hp
  simp only [triArea2_eq_neg_spec] at hp
  by_cases h : 0 < -signedArea2Spec t1.centerPoint s0 s1
  · rw [if_pos h] at hp
    refine ⟨?_, fun _ => by simpa using hp.symm, fun h0 => absurd h (by linarith)⟩
    have := Option.some.inj hp
    rw [← this]
    simp only
    linarith
  · rw [if_neg h] at hp
    have hge : 0 ≤ signedArea2Spec t1.centerPoint s0 s1 := by linarith [not_lt.mp h]
    refine ⟨?_, fun hlt => absurd hge (by linarith), fun _ => by simpa using hp.symm⟩
    have := Option.some.inj hp
    rw [← this]
    simp only
    rw [signedArea2Spec_swap]
    linarith

/-- First triangle of the C4 counterexample (vertices listed so that the
    vertex shared with the second triangle comes first; centroid is the true
    arithmetic mean of the vertices). -/
def cxTriA : Tri := ⟨(⟨1, 1⟩, ⟨2, 0⟩, ⟨0, 0⟩), ⟨1, 1/3⟩, [1]⟩

/-- Second triangle of the C4 counterexample. -/
def cxTriB : Tri := ⟨(⟨0, 0⟩, ⟨1, 1⟩, ⟨-1, 2⟩), ⟨0, 1⟩, [0]⟩

/-- C4 counterexample: the shared pair is ((1,1),(0,0)) and the spec-convention
    signed area of (centroid, shared0, shared1) is positive, yet getSharedEdge
    swaps the pair (left is shared1, not shared0) and the spec-convention
    signed area of (centroid, left, right) is negative, not positive. -/
theorem getSharedEdge_claim_false :
    sharedPoints cxTriA cxTriB = [⟨1, 1⟩, ⟨0, 0⟩] ∧
    0 < signedArea2Spec cxTriA.centerPoint ⟨1, 1⟩ ⟨0, 0⟩ ∧
    getSharedEdge cxTriA cxTriB = some ⟨⟨0, 0⟩, ⟨1, 1⟩⟩ ∧
    ¬ 0 < signedArea2Spec cxTriA.centerPoint (⟨0, 0⟩ : Point) ⟨1, 1⟩ := by
  have hs : sharedPoints cxTriA cxTriB = [⟨1, 1⟩, ⟨0, 0⟩] := by
    norm_num [sharedPoints, triVerts, cxTriA, cxTriB, pointsEqual, eps,
      List.filter, List.any]
  have hp : getSharedEdge cxTriA cxTriB = some ⟨⟨0, 0⟩, ⟨1, 1⟩⟩ := by
    rw [getSharedEdge.eq_def, hs]
    norm_num [triArea2, cxTriA]
  refine ⟨hs, by norm_num [signedArea2Spec, cxTriA], hp,
    by norm_num [signedArea2Spec, cxTriA]⟩

/-- Witness for the amended C4 at the concrete triangle pair. -/
theorem getSharedEdge_orientation_witness :
    sharedPoints cxTriA cxTriB = [⟨1, 1⟩, ⟨0, 0⟩] ∧
    getSharedEdge cxTriA cxTriB = some ⟨⟨0, 0⟩, ⟨1, 1⟩⟩ ∧
    signedArea2Spec cxTriA.centerPoint (⟨0, 0⟩ : Point) (⟨1, 1⟩ : Point) ≤ 0 := by
  have hs : sharedPoints cxTriA cxTriB = [⟨1, 1⟩, ⟨0, 0⟩] := by
    norm_num [sharedPoints, triVerts, cxTriA, cxTriB, pointsEqual, eps,
      List.filter, List.any]
  have hp : getSharedEdge cxTriA cxTriB = some ⟨⟨0, 0⟩, ⟨1, 1⟩⟩ := by
    rw [getSharedEdge.eq_def, hs]
    norm_num [triArea2, cxTriA]
  have h := getSharedEdge_orientation cxTriA cxTriB ⟨1, 1⟩ ⟨0, 0⟩
    ⟨⟨0, 0⟩, ⟨1, 1⟩⟩ hs hp
  exact ⟨hs, hp, h.1⟩

/-! ## Concrete meshes for counterexamples and witnesses -/

/-- Modelled from the spec: a stand-in for Point.getDistanceQuick (Euclidean
    distance, section 6.1) at concrete evaluations.  The corridors of every
    concrete mesh below are forced by the adjacency graph alone (all open sets
    are singletons), so any distance function yields the same triangle path
    there; squared Euclidean distance is the representative. -/
def qdist (p q : Point) : ℚ := getDistanceSquared p q

/-- Square of side 50 split along its diagonal, lower triangle. -/
def sqTriA : Tri := ⟨(⟨0, 0⟩, ⟨50, 0⟩, ⟨50, 50⟩), ⟨100/3, 50/3⟩, [1]⟩

/-- Square of side 50 split along its diagonal, upper triangle. -/
def sqTriB : Tri := ⟨(⟨0, 0⟩, ⟨50, 50⟩, ⟨0, 50⟩), ⟨50/3, 100/3⟩, [0]⟩

/-- A well-formed mesh: the square with vertices (0,0), (50,0), (50,50), (0,50)
    triangulated along the diagonal. -/
def meshSq : Mesh :=
  ⟨[⟨[⟨0, 0⟩, ⟨50, 0⟩, ⟨50, 50⟩, ⟨0, 50⟩], [], [0, 1]⟩], [sqTriA, sqTriB]⟩

/-- A mesh with broken neighbour data: this triangle overlaps ovTriB, they are
    declared neighbours, yet they share only the single vertex (0,0), so the
    portal between them is dropped by getPortalEdges. -/
def ovTriA : Tri := ⟨(⟨0, 0⟩, ⟨50, 0⟩, ⟨0, 50⟩), ⟨50/3, 50/3⟩, [1]⟩

def ovTriB : Tri := ⟨(⟨0, 0⟩, ⟨60, 0⟩, ⟨0, 60⟩), ⟨20, 20⟩, [0]⟩

def meshOv : Mesh :=
  ⟨[⟨[⟨0, 0⟩, ⟨60, 0⟩, ⟨0, 60⟩], [], [0, 1]⟩], [ovTriA, ovTriB]⟩

/-- The goal point of the C2 counterexample: 2e-10 beyond (25,25) in both
    coordinates, outside ovTriA but inside ovTriB, and eps-equal to (25,25). -/
def pB2 : Point := ⟨25 + 1/5000000000, 25 + 1/5000000000⟩

theorem meshSq_locate_10 :
    findTriangleContainingPoint meshSq ⟨10, 10⟩ = some 0 := by
  norm_num [findTriangleContainingPoint, navTriangles, isPointInTriangle,
    pointInTriangle, isPointOnSegment, meshSq, sqTriA, sqTriB,
    eps, epsDegenerate, List.flatMap, List.get?, List.find?]

theorem meshSq_locate_40 :
    findTriangleContainingPoint meshSq ⟨40, 10⟩ = some 0 := by
  norm_num [findTriangleContainingPoint, navTriangles, isPointInTriangle,
    pointInTriangle, isPointOnSegment, meshSq, sqTriA, sqTriB,
    eps, epsDegenerate, List.flatMap, List.get?, List.find?]

/-! ## C7: the eps-separation of consecutive path points fails -/

/-- Amended C7: the direct two-point branches of findPath (start and goal in
    the same triangle, or empty corridor with adjacent goal triangle) return
    exactly the pair of the start and the effective goal, and that pair is
    separated by at least eps in some coordinate exactly when the two points
    are not pointsEqual; so the separation guarantee fails whenever the start
    and the effective goal are eps-equal (for instance A equal to B). -/
theorem findPath_direct_branch (dist : Point → Point → ℚ) (m : Mesh)
    (a b : Point) (clip : Bool) (s tId : Nat) (tp : Point)
    (hl : findTriangleContainingPoint m a = some s)
    (hr : resolveGoal m s a b clip = some (tp, tId))
    (hd : s = tId ∨ (findTrianglePath dist m s tId = [] ∧ isNeighbor m s tId = true)) :
    findPath dist m a b clip = [a, tp] ∧
    (pointsEqual a tp = false ↔ eps ≤ |a.x - tp.x| ∨ eps ≤ |a.y - tp.y|) := by
  constructor
  · by_cases hst : s = tId
    · subst hst
      simp only [findPath.eq_def, hl, hr, if_pos rfl, if_true]
    · rcases hd with h | ⟨h1, h2⟩
      · exact absurd h hst
      · simp only [findPath.eq_def, hl, hr, if_neg hst, h1, h2, if_true]
  · simp only [pointsEqual, decide_eq_false_iff_not, not_and_or, not_lt]

/-- C7 counterexample: with A = B = (10,10) inside the square mesh, findPath
    returns [A, A], whose consecutive points differ by more than eps in no
    coordinate. -/
theorem findPath_eps_separation_false :
    findPath qdist meshSq ⟨10, 10⟩ ⟨10, 10⟩ false = [⟨10, 10⟩, ⟨10, 10⟩] ∧
    ¬ (eps < |(10 : ℚ) - 10| ∨ eps < |(10 : ℚ) - 10|) := by
  have hl := meshSq_locate_10
  have hr : resolveGoal meshSq 0 ⟨10, 10⟩ ⟨10, 10⟩ false = some (⟨10, 10⟩, 0) := by
    rw [resolveGoal.eq_def, hl]
  constructor
  · simp only [findPath.eq_def, hl, hr, if_pos rfl, if_true]
  · norm_num [eps]

/-- Witness for the amended C7 at a pair of distinct points in one triangle. -/
theorem findPath_direct_branch_witness :
    findTriangleContainingPoint meshSq ⟨10, 10⟩ = some 0 ∧
    resolveGoal meshSq 0 ⟨10, 10⟩ ⟨40, 10⟩ false = some (⟨40, 10⟩, 0) ∧
    findPath qdist meshSq ⟨10, 10⟩ ⟨40, 10⟩ false = [⟨10, 10⟩, ⟨40, 10⟩] ∧
    (pointsEqual ⟨10, 10⟩ ⟨40, 10⟩ = false ↔
      eps ≤ |(10 : ℚ) - 40| ∨ eps ≤ |(10 : ℚ) - 10|) := by
  have hl := meshSq_locate_10
  have hr : resolveGoal meshSq 0 ⟨10, 10⟩ ⟨40, 10⟩ false = some (⟨40, 10⟩, 0) := by
    rw [resolveGoal.eq_def, meshSq_locate_40]
  have h := findPath_direct_branch qdist meshSq ⟨10, 10⟩ ⟨40, 10⟩ false 0 0
    ⟨40, 10⟩ hl hr (Or.inl rfl)
  exact ⟨hl, hr, h.1, h.2⟩

/-! ## C2: endpoint law counterexample and amended endpoint law -/

theorem meshOv_locate_a :
    findTriangleContainingPoint meshOv ⟨25, 25⟩ = some 0 := by
  norm_num [findTriangleContainingPoint, navTriangles, isPointInTriangle,
    pointInTriangle, isPointOnSegment, meshOv, ovTriA, ovTriB,
    eps, epsDegenerate, List.flatMap, List.get?, List.find?]

theorem meshOv_locate_b :
    findTriangleContainingPoint meshOv pB2 = some 1 := by
  norm_num [findTriangleContainingPoint, navTriangles, isPointInTriangle,
    pointInTriangle, isPointOnSegment, meshOv, ovTriA, ovTriB, pB2,
    eps, epsDegenerate, List.flatMap, List.get?, List.find?, lt_abs, abs_lt]

theorem meshOv_astar :
    findTrianglePath qdist meshOv 0 1 = [1] := by
  norm_num [findTrianglePath.eq_def, astarLoop, sortByKey, insertByKey, sortKey,
    expandNeighbor.eq_def, walkParents, updateNode, qdist, getDistanceSquared,
    meshOv, ovTriA, ovTriB, List.get?, lookupNode, natMem]

theorem meshOv_portals_empty :
    getPortalEdges meshOv [0, 1] = [] := by
  norm_num [getPortalEdges, adjPairs, getSharedEdge.eq_def, sharedPoints,
    triVerts, meshOv, ovTriA, ovTriB, pointsEqual, eps, List.get?,
    List.filter, List.any, List.filterMap]

theorem meshOv_funnel :
    funnel meshOv ⟨25, 25⟩ pB2 [0, 1] = [⟨25, 25⟩] := by
  have hps : getPortalEdges meshOv [0, 1] ++ [(⟨pB2, pB2⟩ : Portal)]
      = [⟨pB2, pB2⟩] := by
    rw [meshOv_portals_empty]
    rfl
  have e1 : funnelStep 0 ⟨[⟨25,25⟩], ⟨25,25⟩, 0, ⟨25,25⟩, 0, ⟨25,25⟩, 0⟩
      (([⟨pB2, pB2⟩] : List Portal)[0].left) (([⟨pB2, pB2⟩] : List Portal)[0].right)
      = (1, ⟨[⟨25,25⟩], ⟨25,25⟩, 0, pB2, 1, pB2, 1⟩) := by
    norm_num [funnelStep, leftUpdate, pointsEqual_iff, eps, triArea2, pB2, abs_lt]
  have hloop : funnelLoop [⟨pB2, pB2⟩] 9 0
      ⟨[⟨25,25⟩], ⟨25,25⟩, 0, ⟨25,25⟩, 0, ⟨25,25⟩, 0⟩ = ([⟨25,25⟩], true) := by
    rw [funnelLoop_step_eval _ 8 0 _ (by norm_num) _ e1]
    exact funnelLoop_done _ 7 1 _ (by norm_num)
  have hf : funnelFuel ([(⟨pB2, pB2⟩ : Portal)] : List Portal).length = 9 := by
    norm_num [funnelFuel]
  unfold funnel
  rw [hps]
  simp only [hf, hloop]
  norm_num [appendIfFar, pointsEqual_iff, eps, pB2, abs_lt]

/-- C2 counterexample: B locates to a triangle of the mesh (so the effective
    goal is B itself), findPath returns a non-empty sequence, yet that sequence
    is the single point A: it has fewer than two points and its last element is
    not B.  (The corridor exists but the two connected triangles share only one
    vertex, so the portal list is empty; the funnel keeps the path at [A] and
    both final appends are suppressed because A and B are eps-equal.) -/
theorem findPath_endpoint_claim_false :
    findTriangleContainingPoint meshOv pB2 = some 1 ∧
    findPath qdist meshOv ⟨25, 25⟩ pB2 false = [⟨25, 25⟩] ∧
    ¬ 2 ≤ (findPath qdist meshOv ⟨25, 25⟩ pB2 false).length ∧
    (findPath qdist meshOv ⟨25, 25⟩ pB2 false).getLast? ≠ some pB2 := by
  have hr : resolveGoal meshOv 0 ⟨25, 25⟩ pB2 false = some (pB2, 1) := by
    rw [resolveGoal.eq_def, meshOv_locate_b]
  have hfp : findPath qdist meshOv ⟨25, 25⟩ pB2 false = [⟨25, 25⟩] := by
    have hne : (0 : Nat) ≠ 1 := by norm_num
    simp only [findPath.eq_def, meshOv_locate_a, hr, if_neg hne, meshOv_astar,
      meshOv_funnel]
    norm_num [appendIfFar, pointsEqual_iff, eps, pB2, abs_lt]
  refine ⟨meshOv_locate_b, hfp, by rw [hfp]; norm_num, by rw [hfp]; norm_num [pB2]⟩

/-! ## C6: funnel on an empty portal list -/

/-- Evaluation of the funnel when portal extraction yields no portals: only the
    sentinel portal is processed, both bounds tighten to the goal without any
    push, and the final append fires exactly when start and goal are not
    eps-equal. -/
theorem funnel_portalFree (m : Mesh) (start goal : Point) (ids : List Nat)
    (hpe : getPortalEdges m ids = []) :
    funnel m start goal ids =
      if pointsEqual start goal = true then [start] else [start, goal] := by
  have hps : getPortalEdges m ids ++ [(⟨goal, goal⟩ : Portal)] = [⟨goal, goal⟩] := by
    rw [hpe]
    rfl
  have e1 : funnelStep 0 ⟨[start], start, 0, start, 0, start, 0⟩
      (([⟨goal, goal⟩] : List Portal)[0].left)
      (([⟨goal, goal⟩] : List Portal)[0].right)
      = (1, ⟨[start], start, 0, goal, 1, goal, 1⟩) := by
    simp [funnelStep, leftUpdate, triArea2_self_left, pointsEqual_refl]
  have hloop : funnelLoop [⟨goal, goal⟩] 9 0 ⟨[start], start, 0, start, 0, start, 0⟩
      = ([start], true) := by
    rw [funnelLoop_step_eval _ 8 0 _ (by norm_num) _ e1]
    exact funnelLoop_done _ 7 1 _ (by norm_num)
  have hf : funnelFuel ([(⟨goal, goal⟩ : Portal)] : List Portal).length = 9 := by
    norm_num [funnelFuel]
  unfold funnel
  rw [hps]
  simp only [hf, hloop, appendIfFar, List.getLast?_singleton, List.singleton_append]

/-- Amended C6: for a corridor longer than one triangle whose portal extraction
    is empty, the funnel returns [start, goal] when start and goal are not
    eps-equal, and the single-point sequence [start] when they are. -/
theorem funnel_empty_portals (m : Mesh) (start goal : Point) (ids : List Nat)
    (_hlen : 1 < ids.length) (hpe : getPortalEdges m ids = []) :
    funnel m start goal ids =
      if pointsEqual start goal = true then [start] else [start, goal] :=
  funnel_portalFree m start goal ids hpe

/-- C6 counterexample: corridor [0, 1] of meshOv is longer than one triangle
    and yields no portals, and with start = goal = (0,0) the funnel returns the
    single point [start], not [start, goal]. -/
theorem funnel_empty_portals_claim_false :
    1 < ([0, 1] : List Nat).length ∧
    getPortalEdges meshOv [0, 1] = [] ∧
    funnel meshOv ⟨0, 0⟩ ⟨0, 0⟩ [0, 1] = [⟨0, 0⟩] ∧
    funnel meshOv ⟨0, 0⟩ ⟨0, 0⟩ [0, 1] ≠ [⟨0, 0⟩, ⟨0, 0⟩] := by
  have h := funnel_portalFree meshOv ⟨0, 0⟩ ⟨0, 0⟩ [0, 1] meshOv_portals_empty
  rw [if_pos (pointsEqual_refl _)] at h
  refine ⟨by norm_num, meshOv_portals_empty, h, ?_⟩
  rw [h]
  simp

/-- Witness for the amended C6 at eps-distinct start and goal. -/
theorem funnel_empty_portals_witness :
    1 < ([0, 1] : List Nat).length ∧
    getPortalEdges meshOv [0, 1] = [] ∧
    funnel meshOv ⟨0, 0⟩ ⟨5, 5⟩ [0, 1] = [⟨0, 0⟩, ⟨5, 5⟩] := by
  have hne : ¬ pointsEqual ⟨0, 0⟩ ⟨5, 5⟩ = true := by
    norm_num [pointsEqual_iff, eps, abs_lt]
  have h := funnel_empty_portals meshOv ⟨0, 0⟩ ⟨5, 5⟩ [0, 1] (by norm_num)
    meshOv_portals_empty
  rw [if_neg hne] at h
  exact ⟨by norm_num, meshOv_portals_empty, h⟩

/-! ## Structural facts about the funnel output -/

theorem leftUpdate_path (pL : Point) (i : Nat) (st : FSt) :
    ∃ l, (leftUpdate pL i st).2.path = st.path ++ l := by
  unfold leftUpdate
  split_ifs
  · exact ⟨[], by simp⟩
  · exact ⟨[st.rPt], by simp⟩
  · exact ⟨[], by simp⟩

theorem funnelStep_path (i : Nat) (st : FSt) (pL pR : Point) :
    ∃ l, (funnelStep i st pL pR).2.path = st.path ++ l := by
  unfold funnelStep
  split_ifs
  · obtain ⟨l, hl⟩ := leftUpdate_path pL i { st with rPt := pR, rIdx := i + 1 }
    exact ⟨l, by simpa using hl⟩
  · exact ⟨[st.lPt], by simp⟩
  · obtain ⟨l, hl⟩ := leftUpdate_path pL i st
    exact ⟨l, hl⟩

theorem funnelLoop_path_prefix (ps : List Portal) (fuel : Nat) :
    ∀ i st, ∃ l, (funnelLoop ps fuel i st).1 = st.path ++ l := by
  induction fuel with
  | zero => exact fun i st => ⟨[], by simp [funnelLoop]⟩
  | succ n ih =>
    intro i st
    rw [funnelLoop.eq_def]
    by_cases h : i < ps.length
    · simp only [dif_pos h]
      obtain ⟨l1, h1⟩ := funnelStep_path i st (ps[i].left) (ps[i].right)
      obtain ⟨l2, h2⟩ := ih (funnelStep i st (ps[i].left) (ps[i].right)).1
        (funnelStep i st (ps[i].left) (ps[i].right)).2
      exact ⟨l1 ++ l2, by rw [h2, h1, List.append_assoc]⟩
    · simp only [dif_neg h]
      exact ⟨[], by simp⟩

theorem appendIfFar_cons (a : Point) (l : List Point) (g : Point) :
    ∃ t, appendIfFar (a :: l) g = a :: t := by
  unfold appendIfFar
  cases h : (a :: l).getLast? with
  | none => exact absurd (List.getLast?_eq_none_iff.mp h) (by simp)
  | some lp =>
    by_cases hpe : pointsEqual lp g = true
    · exact ⟨l, by simp [hpe]⟩
    · exact ⟨l ++ [g], by simp [hpe]⟩

theorem appendIfFar_last (l : List Point) (g : Point) (h : l ≠ []) :
    ∃ x, (appendIfFar l g).getLast? = some x ∧ pointsEqual x g = true := by
  unfold appendIfFar
  cases hl : l.getLast? with
  | none => exact absurd (List.getLast?_eq_none_iff.mp hl) h
  | some lp =>
    by_cases hpe : pointsEqual lp g = true
    · exact ⟨lp, by simp [hpe, hl], hpe⟩
    · exact ⟨g, by simp [hpe, List.getLast?_concat], pointsEqual_refl g⟩

/-- The funnel output always starts with the start point, and its last point is
    always eps-equal to the goal. -/
theorem funnel_head_last (m : Mesh) (s g : Point) (ids : List Nat) :
    (∃ t, funnel m s g ids = s :: t) ∧
    (∃ x, (funnel m s g ids).getLast? = some x ∧ pointsEqual x g = true) := by
  obtain ⟨l, hl⟩ := funnelLoop_path_prefix
    (getPortalEdges m ids ++ [⟨g, g⟩])
    (funnelFuel (getPortalEdges m ids ++ [(⟨g, g⟩ : Portal)]).length)
    0 ⟨[s], s, 0, s, 0, s, 0⟩
  have hb : funnel m s g ids =
      appendIfFar ((funnelLoop (getPortalEdges m ids ++ [⟨g, g⟩])
        (funnelFuel (getPortalEdges m ids ++ [(⟨g, g⟩ : Portal)]).length)
        0 ⟨[s], s, 0, s, 0, s, 0⟩).1) g := rfl
  rw [hb, hl]
  constructor
  · exact appendIfFar_cons s l g
  · exact appendIfFar_last (([s] ++ l)) g (by simp)

theorem funnel_ne_nil (m : Mesh) (s g : Point) (ids : List Nat) :
    funnel m s g ids ≠ [] := by
  obtain ⟨⟨t, ht⟩, -⟩ := funnel_head_last m s g ids
  rw [ht]
  simp

theorem appendIfFar_ne_nil (l : List Point) (g : Point) (h : l ≠ []) :
    appendIfFar l g ≠ [] := by
  obtain ⟨a, t, rfl⟩ := List.exists_cons_of_ne_nil h
  obtain ⟨t2, ht2⟩ := appendIfFar_cons a t g
  rw [ht2]
  simp

/-- resolveGoal fails exactly when B locates to no triangle and either the
    owning polygon of the start triangle cannot be found or the projected goal
    locates to no triangle. -/
theorem resolveGoal_eq_none_iff (m : Mesh) (s : Nat) (a b : Point) (clip : Bool) :
    resolveGoal m s a b clip = none ↔
      findTriangleContainingPoint m b = none ∧
      (polyOf m s = none ∨
        ∃ poly, polyOf m s = some poly ∧
          findTriangleContainingPoint m (projectGoal clip a b poly) = none) := by
  unfold resolveGoal
  cases hb : findTriangleContainingPoint m b with
  | some e => simp
  | none =>
    cases hp : polyOf m s with
    | none => simp
    | some poly =>
      cases ht : findTriangleContainingPoint m (projectGoal clip a b poly) with
      | none => simp [ht]
      | some tId => simp [ht]

/-- What a successful goal resolution means: the effective goal is B itself
    when B locates to a triangle, and the projected point of A's owning
    polygon when it does not. -/
theorem resolveGoal_characterization (m : Mesh) (s : Nat) (a b : Point)
    (clip : Bool) (tp : Point) (tId : Nat)
    (h : resolveGoal m s a b clip = some (tp, tId)) :
    (∀ e, findTriangleContainingPoint m b = some e → tp = b ∧ tId = e) ∧
    (findTriangleContainingPoint m b = none →
      ∃ poly, polyOf m s = some poly ∧ tp = projectGoal clip a b poly) := by
  unfold resolveGoal at h
  cases hb : findTriangleContainingPoint m b with
  | some e =>
    rw [hb] at h
    simp only [Option.some.injEq, Prod.mk.injEq] at h
    constructor
    · intro e' he'
      simp only [Option.some.injEq] at he'
      refine ⟨h.1.symm, ?_⟩
      rw [← h.2, he']
    · intro hnone
      exact absurd hnone (by simp)
  | none =>
    rw [hb] at h
    constructor
    · intro e' he'
      exact absurd he' (by simp)
    · intro _
      cases hp : polyOf m s with
      | none => simp [hp] at h
      | some poly =>
        cases ht : findTriangleContainingPoint m (projectGoal clip a b poly) with
        | none => simp [hp, ht] at h
        | some t =>
          simp only [hp, ht, Option.some.injEq, Prod.mk.injEq] at h
          exact ⟨poly, rfl, h.1.symm⟩

/-- C1: findPath returns the empty sequence exactly when the start point
    locates to no triangle, or B locates to no triangle and the goal
    projection fails (no owning polygon, or the projected point locates to no
    triangle), or the goal was resolved to a triangle distinct from the start
    triangle, the A* search returned an empty corridor, and the goal triangle
    is not a direct neighbour of the start triangle. -/
theorem findPath_empty_iff (dist : Point → Point → ℚ) (m : Mesh) (a b : Point)
    (clip : Bool) :
    findPath dist m a b clip = [] ↔
      findTriangleContainingPoint m a = none ∨
      (∃ s, findTriangleContainingPoint m a = some s ∧
        findTriangleContainingPoint m b = none ∧
        (polyOf m s = none ∨
          ∃ poly, polyOf m s = some poly ∧
            findTriangleContainingPoint m (projectGoal clip a b poly) = none)) ∨
      (∃ s tp tId, findTriangleContainingPoint m a = some s ∧
        resolveGoal m s a b clip = some (tp, tId) ∧ s ≠ tId ∧
        findTrianglePath dist m s tId = [] ∧ ¬ isNeighbor m s tId = true) := by
  cases hA : findTriangleContainingPoint m a with
  | none =>
    simp only [findPath.eq_def, hA]
    simp [hA]
  | some s =>
    cases hR : resolveGoal m s a b clip with
    | none =>
      have hN := (resolveGoal_eq_none_iff m s a b clip).mp hR
      simp only [findPath.eq_def, hA, hR]
      constructor
      · intro _
        exact Or.inr (Or.inl ⟨s, rfl, hN.1, hN.2⟩)
      · intro _
        trivial
    | some pr =>
      obtain ⟨tp, tId⟩ := pr
      have hRne : ¬ (findTriangleContainingPoint m b = none ∧
          (polyOf m s = none ∨
            ∃ poly, polyOf m s = some poly ∧
              findTriangleContainingPoint m (projectGoal clip a b poly) = none)) := by
        intro hc
        rw [(resolveGoal_eq_none_iff m s a b clip).mpr hc] at hR
        exact absurd hR (by simp)
      by_cases hst : s = tId
      · subst hst
        simp only [findPath.eq_def, hA, hR, if_pos rfl, if_true]
        constructor
        · intro hc
          exact absurd hc (by simp)
        · rintro (h1 | ⟨s', hs', hb, hp⟩ | ⟨s', tp', tId', hs', hr', hne', -, -⟩)
          · exact absurd h1 (by simp)
          · simp only [Option.some.injEq] at hs'
            subst hs'
            exact absurd ⟨hb, hp⟩ hRne
          · simp only [Option.some.injEq] at hs'
            subst hs'
            rw [hR] at hr'
            simp only [Option.some.injEq, Prod.mk.injEq] at hr'
            exact absurd hr'.2 hne'
      · cases hT : findTrianglePath dist m s tId with
        | nil =>
          by_cases hNb : isNeighbor m s tId = true
          · simp only [findPath.eq_def, hA, hR, if_neg hst, hT, hNb, if_true]
            constructor
            · intro hc
              exact absurd hc (by simp)
            · rintro (h1 | ⟨s', hs', hb, hp⟩ | ⟨s', tp', tId', hs', hr', hne', -, hnb'⟩)
              · exact absurd h1 (by simp)
              · simp only [Option.some.injEq] at hs'
                subst hs'
                exact absurd ⟨hb, hp⟩ hRne
              · simp only [Option.some.injEq] at hs'
                subst hs'
                rw [hR] at hr'
                simp only [Option.some.injEq, Prod.mk.injEq] at hr'
                rw [← hr'.2] at hnb'
                exact absurd hNb hnb'
          · simp only [findPath.eq_def, hA, hR, if_neg hst, hT, hNb, if_false]
            constructor
            · intro _
              exact Or.inr (Or.inr ⟨s, tp, tId, rfl, hR, hst, hT, hNb⟩)
            · intro _
              trivial
        | cons t ts =>
          have hnn : appendIfFar (funnel m a tp (s :: t :: ts)) tp ≠ [] :=
            appendIfFar_ne_nil _ _ (funnel_ne_nil m a tp (s :: t :: ts))
          simp only [findPath.eq_def, hA, hR, if_neg hst, hT]
          constructor
          · intro hc
            exact absurd hc hnn
          · rintro (h1 | ⟨s', hs', hb, hp⟩ | ⟨s', tp', tId', hs', hr', hne', ht', -⟩)
            · exact absurd h1 (by simp)
            · simp only [Option.some.injEq] at hs'
              subst hs'
              exact absurd ⟨hb, hp⟩ hRne
            · simp only [Option.some.injEq] at hs'
              subst hs'
              rw [hR] at hr'
              simp only [Option.some.injEq, Prod.mk.injEq] at hr'
              rw [← hr'.2] at ht'
              rw [hT] at ht'
              exact absurd ht' (by simp)

/-- Amended C2: every non-empty result of findPath comes from a successful
    goal resolution; its first element is A exactly, and its last element is
    eps-equal (pointsEqual) to the effective goal, which is B itself when B
    locates to a triangle and the projected point of A's owning polygon
    otherwise.  (Exact equality of the last point with the goal, and the
    two-point lower bound, both fail; see the counterexample.) -/
theorem findPath_endpoints (dist : Point → Point → ℚ) (m : Mesh) (a b : Point)
    (clip : Bool) (hne : findPath dist m a b clip ≠ []) :
    ∃ s tp tId, findTriangleContainingPoint m a = some s ∧
      resolveGoal m s a b clip = some (tp, tId) ∧
      (∀ e, findTriangleContainingPoint m b = some e → tp = b) ∧
      (findTriangleContainingPoint m b = none →
        ∃ poly, polyOf m s = some poly ∧ tp = projectGoal clip a b poly) ∧
      (findPath dist m a b clip).head? = some a ∧
      (∃ x, (findPath dist m a b clip).getLast? = some x ∧
        pointsEqual x tp = true) := by
  cases hA : findTriangleContainingPoint m a with
  | none =>
    rw [findPath.eq_def] at hne
    rw [hA] at hne
    exact absurd rfl hne
  | some s =>
    cases hR : resolveGoal m s a b clip with
    | none =>
      rw [findPath.eq_def] at hne
      rw [hA] at hne
      simp only [hR] at hne
      exact absurd rfl hne
    | some pr =>
      obtain ⟨tp, tId⟩ := pr
      have hch := resolveGoal_characterization m s a b clip tp tId hR
      refine ⟨s, tp, tId, rfl, hR, fun e he => (hch.1 e he).1, hch.2, ?_⟩
      by_cases hst : s = tId
      · subst hst
        have hfp : findPath dist m a b clip = [a, tp] := by
          simp only [findPath.eq_def, hA, hR, if_pos rfl, if_true]
        rw [hfp]
        exact ⟨rfl, tp, rfl, pointsEqual_refl tp⟩
      · cases hT : findTrianglePath dist m s tId with
        | nil =>
          by_cases hNb : isNeighbor m s tId = true
          · have hfp : findPath dist m a b clip = [a, tp] := by
              simp only [findPath.eq_def, hA, hR, if_neg hst, hT, hNb, if_true]
            rw [hfp]
            exact ⟨rfl, tp, rfl, pointsEqual_refl tp⟩
          · rw [findPath.eq_def] at hne
            rw [hA] at hne
            simp only [hR, if_neg hst, hT, hNb, if_false] at hne
            exact absurd rfl hne
        | cons t ts =>
          have hfp : findPath dist m a b clip =
              appendIfFar (funnel m a tp (s :: t :: ts)) tp := by
            simp only [findPath.eq_def, hA, hR, if_neg hst, hT]
          rw [hfp]
          obtain ⟨⟨tl, htl⟩, -⟩ := funnel_head_last m a tp (s :: t :: ts)
          constructor
          · rw [htl]
            obtain ⟨t2, ht2⟩ := appendIfFar_cons a tl tp
            rw [ht2]
            rfl
          · exact appendIfFar_last _ tp (funnel_ne_nil m a tp (s :: t :: ts))

/-- Witness for the amended C2 at a concrete in-mesh query. -/
theorem findPath_endpoints_witness :
    findPath qdist meshSq ⟨10, 10⟩ ⟨40, 10⟩ false ≠ [] ∧
    ∃ s tp tId, findTriangleContainingPoint meshSq ⟨10, 10⟩ = some s ∧
      resolveGoal meshSq s ⟨10, 10⟩ ⟨40, 10⟩ false = some (tp, tId) ∧
      (∀ e, findTriangleContainingPoint meshSq ⟨40, 10⟩ = some e → tp = ⟨40, 10⟩) ∧
      (findTriangleContainingPoint meshSq ⟨40, 10⟩ = none →
        ∃ poly, polyOf meshSq s = some poly ∧
          tp = projectGoal false ⟨10, 10⟩ ⟨40, 10⟩ poly) ∧
      (findPath qdist meshSq ⟨10, 10⟩ ⟨40, 10⟩ false).head? = some ⟨10, 10⟩ ∧
      (∃ x, (findPath qdist meshSq ⟨10, 10⟩ ⟨40, 10⟩ false).getLast? = some x ∧
        pointsEqual x tp = true) := by
  have hr : resolveGoal meshSq 0 ⟨10, 10⟩ ⟨40, 10⟩ false = some (⟨40, 10⟩, 0) := by
    rw [resolveGoal.eq_def, meshSq_locate_40]
  have hfp : findPath qdist meshSq ⟨10, 10⟩ ⟨40, 10⟩ false
      = [⟨10, 10⟩, ⟨40, 10⟩] := by
    simp only [findPath.eq_def, meshSq_locate_10, hr, if_pos rfl, if_true]
  have hne : findPath qdist meshSq ⟨10, 10⟩ ⟨40, 10⟩ false ≠ [] := by
    rw [hfp]
    simp
  exact ⟨hne, findPath_endpoints qdist meshSq ⟨10, 10⟩ ⟨40, 10⟩ false hne⟩

/-! ## C10: every funnel point is the start, the goal, or a portal endpoint -/

theorem leftUpdate_points (pL : Point) (i : Nat) (st : FSt) (S : Point → Prop)
    (hpath : ∀ p ∈ st.path, S p) (hl : S st.lPt) (hr : S st.rPt)
    (hpL : S pL) :
    (∀ p ∈ (leftUpdate pL i st).2.path, S p) ∧
    S (leftUpdate pL i st).2.lPt ∧ S (leftUpdate pL i st).2.rPt := by
  unfold leftUpdate
  split_ifs
  · exact ⟨by simpa using hpath, by simpa using hpL, by simpa using hr⟩
  · refine ⟨?_, by simpa using hr, by simpa using hr⟩
    intro p hp
    simp only [List.mem_append, List.mem_singleton] at hp
    rcases hp with hp | hp
    · exact hpath p hp
    · rw [hp]
      exact hr
  · exact ⟨hpath, hl, hr⟩

theorem funnelStep_points (i : Nat) (st : FSt) (pL pR : Point) (S : Point → Prop)
    (hpath : ∀ p ∈ st.path, S p) (hl : S st.lPt) (hr : S st.rPt)
    (hpL : S pL) (hpR : S pR) :
    (∀ p ∈ (funnelStep i st pL pR).2.path, S p) ∧
    S (funnelStep i st pL pR).2.lPt ∧ S (funnelStep i st pL pR).2.rPt := by
  unfold funnelStep
  split_ifs
  · exact leftUpdate_points pL i _ S (by simpa using hpath) (by simpa using hl)
      (by simpa using hpR) hpL
  · refine ⟨?_, by simpa using hl, by simpa using hl⟩
    intro p hp
    simp only [List.mem_append, List.mem_singleton] at hp
    rcases hp with hp | hp
    · exact hpath p hp
    · rw [hp]
      exact hl
  · exact leftUpdate_points pL i st S hpath hl hr hpL

theorem funnelLoop_points (ps : List Portal) (S : Point → Prop)
    (hps : ∀ e ∈ ps, S e.left ∧ S e.right) (fuel : Nat) :
    ∀ i st, (∀ p ∈ st.path, S p) → S st.lPt → S st.rPt →
      ∀ q ∈ (funnelLoop ps fuel i st).1, S q := by
  induction fuel with
  | zero =>
    intro i st hpath _ _ q hq
    exact hpath q (by simpa [funnelLoop] using hq)
  | succ n ih =>
    intro i st hpath hl hr q hq
    by_cases h : i < ps.length
    · rw [funnelLoop_step_eval ps n i st h _ rfl] at hq
      have hmem : ps[i] ∈ ps := List.getElem_mem h
      obtain ⟨h1, h2, h3⟩ := funnelStep_points i st (ps[i].left) (ps[i].right) S
        hpath hl hr (hps _ hmem).1 (hps _ hmem).2
      exact ih _ _ h1 h2 h3 q hq
    · rw [funnelLoop_done ps n i st h] at hq
      exact hpath q hq

theorem appendIfFar_mem (l : List Point) (g p : Point)
    (hp : p ∈ appendIfFar l g) : p ∈ l ∨ p = g := by
  unfold appendIfFar at hp
  cases hl : l.getLast? with
  | none =>
    simp only [hl] at hp
    exact Or.inl hp
  | some lp =>
    simp only [hl] at hp
    by_cases hpe : pointsEqual lp g = true
    · rw [if_pos hpe] at hp
      exact Or.inl hp
    · rw [if_neg hpe] at hp
      simpa using hp

/-- C10: every point of the funnel output is the start point, the goal point,
    or an endpoint (left or right) of one of the extracted portals. -/
theorem funnel_points (m : Mesh) (s g : Point) (ids : List Nat) (p : Point)
    (hp : p ∈ funnel m s g ids) :
    p = s ∨ p = g ∨
      ∃ e ∈ getPortalEdges m ids, p = e.left ∨ p = e.right := by
  have hb : funnel m s g ids =
      appendIfFar ((funnelLoop (getPortalEdges m ids ++ [⟨g, g⟩])
        (funnelFuel (getPortalEdges m ids ++ [(⟨g, g⟩ : Portal)]).length)
        0 ⟨[s], s, 0, s, 0, s, 0⟩).1) g := rfl
  rw [hb] at hp
  rcases appendIfFar_mem _ g p hp with hp | hp
  · refine funnelLoop_points (getPortalEdges m ids ++ [⟨g, g⟩])
      (fun q => q = s ∨ q = g ∨
        ∃ e ∈ getPortalEdges m ids, q = e.left ∨ q = e.right) ?_ _ 0
      ⟨[s], s, 0, s, 0, s, 0⟩ ?_ (Or.inl rfl) (Or.inl rfl) p hp
    · intro e he
      simp only [List.mem_append, List.mem_singleton] at he
      rcases he with he | he
      · exact ⟨Or.inr (Or.inr ⟨e, he, Or.inl rfl⟩),
          Or.inr (Or.inr ⟨e, he, Or.inr rfl⟩)⟩
      · rw [he]
        exact ⟨Or.inr (Or.inl rfl), Or.inr (Or.inl rfl)⟩
    · intro q hq
      simp only [List.mem_singleton] at hq
      rw [hq]
      exact Or.inl rfl
  · exact Or.inr (Or.inl hp)

/-- Witness for C10 at a concrete funnel run. -/
theorem funnel_points_witness :
    (⟨25, 25⟩ : Point) ∈ funnel meshOv ⟨25, 25⟩ pB2 [0, 1] ∧
    ((⟨25, 25⟩ : Point) = ⟨25, 25⟩ ∨ (⟨25, 25⟩ : Point) = pB2 ∨
      ∃ e ∈ getPortalEdges meshOv [0, 1],
        (⟨25, 25⟩ : Point) = e.left ∨ (⟨25, 25⟩ : Point) = e.right) := by
  have hm : (⟨25, 25⟩ : Point) ∈ funnel meshOv ⟨25, 25⟩ pB2 [0, 1] := by
    rw [meshOv_funnel]
    simp
  exact ⟨hm, funnel_points meshOv ⟨25, 25⟩ pB2 [0, 1] ⟨25, 25⟩ hm⟩

/-! ## C9: termination of the funnel loop -/

/-- Funnel loop invariant.  Either the state is fresh (just initialised or just
    restarted: both bounds sit at the apex and the loop index equals the stored
    apex index, all indices shifted by one), or both stored bound indices
    strictly exceed the apex index and are at most the loop index. -/
def FInv (n i : Nat) (st : FSt) : Prop :=
  i ≤ n ∧ st.apexIdx ≤ n ∧ st.lIdx ≤ n ∧ st.rIdx ≤ n ∧
  ((st.lPt = st.apex ∧ st.rPt = st.apex ∧ st.lIdx = st.apexIdx ∧
      st.rIdx = st.apexIdx ∧ i = st.apexIdx) ∨
    (st.apexIdx < st.lIdx ∧ st.apexIdx < st.rIdx ∧ st.lIdx ≤ i ∧ st.rIdx ≤ i))

/-- Termination measure: every non-restart iteration advances the index, and
    every restart strictly advances the stored apex index. -/
def fmeasure (n i : Nat) (st : FSt) : Nat :=
  (n + 1 - st.apexIdx) * (n + 2) + (n - i)

theorem fmeasure_restart_lt (n aOld aNew iOld iNew : Nat)
    (h1 : aOld < aNew) (h2 : aNew ≤ n) (h3 : iNew ≤ n) :
    (n + 1 - aNew) * (n + 2) + (n - iNew) <
      (n + 1 - aOld) * (n + 2) + (n - iOld) := by
  have hle : n + 1 - aNew ≤ n - aOld := by omega
  calc (n + 1 - aNew) * (n + 2) + (n - iNew)
      ≤ (n - aOld) * (n + 2) + (n - iNew) :=
        Nat.add_le_add_right (Nat.mul_le_mul_right _ hle) _
    _ < (n - aOld) * (n + 2) + (n + 2) := by omega
    _ = (n - aOld + 1) * (n + 2) := by ring
    _ ≤ (n + 1 - aOld) * (n + 2) := Nat.mul_le_mul_right _ (by omega)
    _ ≤ (n + 1 - aOld) * (n + 2) + (n - iOld) := Nat.le_add_right _ _

theorem fmeasure_advance_lt (n a iOld iNew : Nat) (h1 : iOld < iNew)
    (h2 : iOld < n) :
    (n + 1 - a) * (n + 2) + (n - iNew) <
      (n + 1 - a) * (n + 2) + (n - iOld) :=
  Nat.add_lt_add_left (by omega) _

/-- One funnel iteration preserves the invariant and strictly decreases the
    measure. -/
theorem funnelStep_inv (n i : Nat) (st : FSt) (pL pR : Point)
    (h : i < n) (hinv : FInv n i st) :
    FInv n (funnelStep i st pL pR).1 (funnelStep i st pL pR).2 ∧
    fmeasure n (funnelStep i st pL pR).1 (funnelStep i st pL pR).2 <
      fmeasure n i st := by
  obtain ⟨hi, ha, hli, hri, hph⟩ := hinv
  rcases hph with ⟨el, er, eli, eri, eieq⟩ | ⟨pb1, pb2, pb3, pb4⟩
  · -- fresh state: both updates must tighten, no restart is possible
    have hstep : funnelStep i st pL pR =
        (i + 1, { st with lPt := pL, lIdx := i + 1, rPt := pR, rIdx := i + 1 }) := by
      unfold funnelStep leftUpdate
      rw [er, el]
      simp [triArea2_self_left, pointsEqual_refl]
    rw [hstep]
    constructor
    · simp only [FInv]
      exact ⟨by omega, by omega, by omega, by omega, Or.inr (by omega)⟩
    · simp only [fmeasure]
      exact fmeasure_advance_lt n st.apexIdx i (i + 1) (by omega) h
  · -- running state: all seven control paths keep the invariant
    unfold funnelStep leftUpdate
    split_ifs
    · -- tighten right then tighten left
      constructor
      · simp only [FInv]
        exact ⟨by omega, by omega, by omega, by omega, Or.inr (by omega)⟩
      · simp only [fmeasure]
        exact fmeasure_advance_lt n st.apexIdx i (i + 1) (by omega) h
    · -- tighten right then restart at the stored right index
      constructor
      · simp only [FInv]
        exact ⟨by omega, by omega, by omega, by omega,
          Or.inl ⟨trivial, trivial, trivial, trivial, trivial⟩⟩
      · simp only [fmeasure]
        exact fmeasure_restart_lt n st.apexIdx (i + 1) i (i + 1) (by omega)
          (by omega) (by omega)
    · -- tighten right, skip left
      constructor
      · simp only [FInv]
        exact ⟨by omega, by omega, by omega, by omega, Or.inr (by omega)⟩
      · simp only [fmeasure]
        exact fmeasure_advance_lt n st.apexIdx i (i + 1) (by omega) h
    · -- restart at the stored left index
      constructor
      · simp only [FInv]
        exact ⟨by omega, by omega, by omega, by omega,
          Or.inl ⟨trivial, trivial, trivial, trivial, trivial⟩⟩
      · simp only [fmeasure]
        exact fmeasure_restart_lt n st.apexIdx st.lIdx i st.lIdx (by omega)
          (by omega) (by omega)
    · -- skip right, tighten left
      constructor
      · simp only [FInv]
        exact ⟨by omega, by omega, by omega, by omega, Or.inr (by omega)⟩
      · simp only [fmeasure]
        exact fmeasure_advance_lt n st.apexIdx i (i + 1) (by omega) h
    · -- skip right, restart at the stored right index
      constructor
      · simp only [FInv]
        exact ⟨by omega, by omega, by omega, by omega,
          Or.inl ⟨trivial, trivial, trivial, trivial, trivial⟩⟩
      · simp only [fmeasure]
        exact fmeasure_restart_lt n st.apexIdx st.rIdx i st.rIdx (by omega)
          (by omega) (by omega)
    · -- skip both
      constructor
      · simp only [FInv]
        exact ⟨by omega, ha, hli, hri, Or.inr (by omega)⟩
      · simp only [fmeasure]
        exact fmeasure_advance_lt n st.apexIdx i (i + 1) (by omega) h

theorem funnelLoop_completes (ps : List Portal) :
    ∀ fuel i st, FInv ps.length i st → fmeasure ps.length i st < fuel →
      (funnelLoop ps fuel i st).2 = true := by
  intro fuel
  induction fuel with
  | zero =>
    intro i st _ hm
    exact absurd hm (Nat.not_lt_zero _)
  | succ fuel ih =>
    intro i st hinv hm
    by_cases h : i < ps.length
    · rw [funnelLoop_step_eval ps fuel i st h _ rfl]
      obtain ⟨hinv2, hm2⟩ := funnelStep_inv ps.length i st (ps[i].left)
        (ps[i].right) h hinv
      exact ih _ _ hinv2 (by omega)
    · rw [funnelLoop_done ps fuel i st h]

/-- C9: with the fuel used by funnel, the funnel loop always completes
    normally — despite the backward restarts, it performs only finitely many
    iterations on every portal list and every start point, so the funnel is a
    total function. -/
theorem funnelLoop_terminates (ps : List Portal) (start : Point) :
    (funnelLoop ps (funnelFuel ps.length)
      0 ⟨[start], start, 0, start, 0, start, 0⟩).2 = true := by
  apply funnelLoop_completes
  · exact ⟨Nat.zero_le _, Nat.zero_le _, Nat.zero_le _, Nat.zero_le _,
      Or.inl ⟨rfl, rfl, rfl, rfl, rfl⟩⟩
  · show (ps.length + 1 - 0) * (ps.length + 2) + (ps.length - 0) <
      (ps.length + 2) * (ps.length + 2)
    have h2 : (ps.length + 2) * (ps.length + 2)
        = (ps.length + 1 - 0) * (ps.length + 2) + (ps.length + 2) := by
      simp only [Nat.sub_zero]
      ring
    rw [h2]
    exact Nat.add_lt_add_left (by omega) _

/-! ## C5: ray-clip goal projection -/

theorem interStep_spec (p1 : Point) (acc : Option Point) (x : Point) :
    ∃ r, interStep p1 acc x = some r ∧
      getDistanceSquared p1 r ≤ getDistanceSquared p1 x ∧
      (∀ b, acc = some b → getDistanceSquared p1 r ≤ getDistanceSquared p1 b) ∧
      (r = x ∨ acc = some r) := by
  cases acc with
  | none =>
    exact ⟨x, rfl, le_refl _, fun b hb => absurd hb (by simp), Or.inl rfl⟩
  | some b =>
    by_cases hlt : getDistanceSquared p1 x < getDistanceSquared p1 b
    · refine ⟨x, by simp [interStep, hlt], le_refl _, ?_, Or.inl rfl⟩
      intro b0 hb0
      simp only [Option.some.injEq] at hb0
      rw [← hb0]
      exact le_of_lt hlt
    · refine ⟨b, by simp [interStep, hlt], le_of_not_lt hlt, ?_, Or.inr rfl⟩
      intro b0 hb0
      simp only [Option.some.injEq] at hb0
      rw [← hb0]

theorem interFold_some (p1 : Point) (l : List Point) :
    ∀ acc r, l.foldl (interStep p1) acc = some r →
      (acc = some r ∨ r ∈ l) ∧
      (∀ c ∈ l, getDistanceSquared p1 r ≤ getDistanceSquared p1 c) ∧
      (∀ b, acc = some b → getDistanceSquared p1 r ≤ getDistanceSquared p1 b) := by
  induction l with
  | nil =>
    intro acc r hr
    exact ⟨Or.inl hr, by simp, fun b hb => by rw [hb] at hr; simp at hr; rw [hr]⟩
  | cons x xs ih =>
    intro acc r hr
    simp only [List.foldl_cons] at hr
    obtain ⟨r1, hr1, hr1x, hr1acc, hr1mem⟩ := interStep_spec p1 acc x
    rw [hr1] at hr
    obtain ⟨hmem, hmin, hacc⟩ := ih (some r1) r hr
    have hrr1 : getDistanceSquared p1 r ≤ getDistanceSquared p1 r1 :=
      hacc r1 rfl
    refine ⟨?_, ?_, ?_⟩
    · rcases hmem with hm | hm
      · simp only [Option.some.injEq] at hm
        rw [← hm]
        rcases hr1mem with h | h
        · exact Or.inr (by rw [h]; exact List.mem_cons_self x xs)
        · exact Or.inl h
      · exact Or.inr (List.mem_cons_of_mem x hm)
    · intro c hc
      rcases List.mem_cons.mp hc with hcx | hcxs
      · rw [hcx]
        exact le_trans hrr1 hr1x
      · exact hmin c hcxs
    · intro b hb
      exact le_trans hrr1 (hr1acc b hb)

theorem interFold_none (p1 : Point) (l : List Point) :
    ∀ acc, l.foldl (interStep p1) acc = none → acc = none ∧ l = [] := by
  induction l with
  | nil => exact fun acc h => ⟨h, rfl⟩
  | cons x xs ih =>
    intro acc h
    simp only [List.foldl_cons] at h
    obtain ⟨r1, hr1, -, -, -⟩ := interStep_spec p1 acc x
    rw [hr1] at h
    exact absurd (ih (some r1) h).1 (by simp)

/-- C5: in ray-clip mode the goal projector returns the intersection of the
    segment from A to B with the edges of the outer ring and every hole ring
    that is nearest to A by squared distance, and when no edge yields an
    intersection it falls back to closest-boundary mode. -/
theorem projectGoal_rayClip (a b : Point) (poly : Polygon) :
    (∀ p, findIntersectionWithPolygon a b poly = some p →
      p ∈ intersectionCandidates a b poly ∧
      (∀ q ∈ intersectionCandidates a b poly,
        getDistanceSquared a p ≤ getDistanceSquared a q) ∧
      projectGoal true a b poly = p) ∧
    (findIntersectionWithPolygon a b poly = none →
      (∀ e ∈ ringEdges poly.points, getSegmentIntersectionPoint a b e.1 e.2 = none) ∧
      (∀ h ∈ poly.holes, ∀ e ∈ ringEdges h,
        getSegmentIntersectionPoint a b e.1 e.2 = none) ∧
      projectGoal true a b poly = findClosestPointInPolygon b poly) := by
  constructor
  · intro p hp
    obtain ⟨hmem, hmin, -⟩ :=
      interFold_some a (intersectionCandidates a b poly) none p hp
    refine ⟨?_, hmin, ?_⟩
    · rcases hmem with hm | hm
      · exact absurd hm (by simp)
      · exact hm
    · simp [projectGoal, hp]
  · intro hnone
    have hl := (interFold_none a (intersectionCandidates a b poly) none hnone).2
    unfold intersectionCandidates at hl
    rw [List.append_eq_nil] at hl
    obtain ⟨h1, h2⟩ := hl
    rw [List.filterMap_eq_nil_iff] at h1
    refine ⟨h1, ?_, by simp [projectGoal, hnone]⟩
    intro h hh e he
    have h3 : (ringEdges h).filterMap
        (fun e => getSegmentIntersectionPoint a b e.1 e.2) = [] :=
      List.flatMap_eq_nil_iff.mp h2 h hh
    rw [List.filterMap_eq_nil_iff] at h3
    exact h3 e he

/-- The square polygon of meshSq as a standalone record. -/
def sqPoly : Polygon := ⟨[⟨0, 0⟩, ⟨50, 0⟩, ⟨50, 50⟩, ⟨0, 50⟩], [], [0, 1]⟩

theorem projectGoal_rayClip_witness :
    findIntersectionWithPolygon ⟨10, 10⟩ ⟨60, 35⟩ sqPoly = some ⟨50, 30⟩ ∧
    (⟨50, 30⟩ : Point) ∈ intersectionCandidates ⟨10, 10⟩ ⟨60, 35⟩ sqPoly ∧
    projectGoal true ⟨10, 10⟩ ⟨60, 35⟩ sqPoly = ⟨50, 30⟩ := by
  have heval : findIntersectionWithPolygon ⟨10, 10⟩ ⟨60, 35⟩ sqPoly
      = some ⟨50, 30⟩ := by
    norm_num [findIntersectionWithPolygon, intersectionCandidates, ringEdges,
      getSegmentIntersectionPoint, sqPoly, epsParallel, interStep,
      List.filterMap, List.range, List.range.loop, abs_lt, lt_abs]
  have h := (projectGoal_rayClip ⟨10, 10⟩ ⟨60, 35⟩ sqPoly).1 ⟨50, 30⟩ heval
  exact ⟨heval, h.1, h.2.2⟩

/-! ## C3: closest-boundary goal projection -/

theorem checkCloser_step (t : Point) (acc : Point × Option ℚ) (p : Point) :
    ∃ q d, checkCloser t acc p = (q, some d) ∧
      d ≤ getDistanceSquared t p ∧
      (∀ m, acc.2 = some m → d ≤ m) ∧
      ((q = p ∧ d = getDistanceSquared t p) ∨ checkCloser t acc p = acc) := by
  cases hacc : acc.2 with
  | none =>
    refine ⟨p, getDistanceSquared t p, by simp [checkCloser, hacc], le_refl _,
      ?_, Or.inl ⟨rfl, rfl⟩⟩
    intro m hm
    exact absurd hm (by simp)
  | some m =>
    by_cases hlt : getDistanceSquared t p < m
    · refine ⟨p, getDistanceSquared t p, by simp [checkCloser, hacc, hlt],
        le_refl _, ?_, Or.inl ⟨rfl, rfl⟩⟩
      intro m0 hm0
      simp only [Option.some.injEq] at hm0
      exact le_of_lt (hm0 ▸ hlt)
    · refine ⟨acc.1, m, ?_, le_of_not_lt hlt, ?_, Or.inr ?_⟩
      · simp [checkCloser, hacc, hlt, Prod.ext_iff]
      · intro m0 hm0
        simp only [Option.some.injEq] at hm0
        exact le_of_eq hm0
      · simp [checkCloser, hacc, hlt]

theorem closeFold_mono (t : Point) (l : List Point) :
    ∀ acc m, acc.2 = some m →
      ∃ d, (l.foldl (checkCloser t) acc).2 = some d ∧ d ≤ m := by
  induction l with
  | nil => exact fun acc m hm => ⟨m, hm, le_refl m⟩
  | cons x xs ih =>
    intro acc m hm
    simp only [List.foldl_cons]
    obtain ⟨q, d1, hstep, hdx, hmono, -⟩ := checkCloser_step t acc x
    rw [hstep]
    obtain ⟨d, hd, hdd⟩ := ih (q, some d1) d1 rfl
    exact ⟨d, hd, le_trans hdd (hmono m hm)⟩

theorem closeFold_min (t : Point) (l : List Point) :
    ∀ acc, ∀ c ∈ l, ∃ d, (l.foldl (checkCloser t) acc).2 = some d ∧
      d ≤ getDistanceSquared t c := by
  induction l with
  | nil => intro acc c hc; exact absurd hc (by simp)
  | cons x xs ih =>
    intro acc c hc
    simp only [List.foldl_cons]
    obtain ⟨q, d1, hstep, hdx, -, -⟩ := checkCloser_step t acc x
    rw [hstep]
    rcases List.mem_cons.mp hc with hcx | hcxs
    · obtain ⟨d, hd, hdd⟩ := closeFold_mono t xs (q, some d1) d1 rfl
      subst hcx
      exact ⟨d, hd, le_trans hdd hdx⟩
    · exact ih (q, some d1) c hcxs

theorem closeFold_mem (t : Point) (l : List Point) :
    ∀ acc, (l.foldl (checkCloser t) acc).1 = acc.1 ∨
      (l.foldl (checkCloser t) acc).1 ∈ l := by
  induction l with
  | nil => exact fun acc => Or.inl rfl
  | cons x xs ih =>
    intro acc
    simp only [List.foldl_cons]
    obtain ⟨q, d1, hstep, -, -, hcases⟩ := checkCloser_step t acc x
    rw [hstep]
    rcases ih (q, some d1) with h | h
    · rcases hcases with ⟨hqp, -⟩ | hacc
      · right
        rw [h, hqp]
        exact List.mem_cons_self x xs
      · left
        rw [h]
        rw [hstep] at hacc
        rw [← hacc]
    · exact Or.inr (List.mem_cons_of_mem x h)

/-- The running accumulator of findClosestPointInPolygon records, whenever a
    distance is stored, the squared distance to the stored point. -/
def accInv (t : Point) (acc : Point × Option ℚ) : Prop :=
  ∀ d, acc.2 = some d → d = getDistanceSquared t acc.1

theorem closeFold_inv (t : Point) (l : List Point) :
    ∀ acc, accInv t acc → accInv t (l.foldl (checkCloser t) acc) := by
  induction l with
  | nil => exact fun acc h => h
  | cons x xs ih =>
    intro acc hinv
    simp only [List.foldl_cons]
    apply ih
    obtain ⟨q, d1, hstep, -, -, hcases⟩ := checkCloser_step t acc x
    rcases hcases with ⟨hqp, hd1⟩ | hacc
    · rw [hstep]
      intro d hd
      simp only [Option.some.injEq] at hd
      rw [← hd, hd1, hqp]
    · rw [hacc]
      exact hinv

theorem closeFold_mem_of_ne (t : Point) (l : List Point) (p0 : Point)
    (hl : l ≠ []) :
    (l.foldl (checkCloser t) (p0, none)).1 ∈ l := by
  cases l with
  | nil => exact absurd rfl hl
  | cons x xs =>
    simp only [List.foldl_cons]
    have hstep : checkCloser t (p0, none) x =
        (x, some (getDistanceSquared t x)) := by
      simp [checkCloser]
    rw [hstep]
    rcases closeFold_mem t xs (x, some (getDistanceSquared t x)) with h | h
    · rw [h]
      exact List.mem_cons_self x xs
    · exact List.mem_cons_of_mem x h

theorem findClosestPointInPolygon_min_code (t : Point) (poly : Polygon) :
    ∀ c ∈ closestCandidates t poly,
      getDistanceSquared t (findClosestPointInPolygon t poly) ≤
        getDistanceSquared t c := by
  intro c hc
  obtain ⟨d, hd, hdc⟩ := closeFold_min t (closestCandidates t poly) (t, none) c hc
  have hinv := closeFold_inv t (closestCandidates t poly) (t, none)
    (fun d0 hd0 => absurd hd0 (by simp))
  have heq := hinv d hd
  unfold findClosestPointInPolygon
  rw [← heq]
  exact hdc

theorem findClosestPointInPolygon_mem_code (t : Point) (poly : Polygon)
    (hne : poly.points ≠ []) :
    findClosestPointInPolygon t poly ∈ closestCandidates t poly := by
  apply closeFold_mem_of_ne
  unfold closestCandidates
  intro h
  obtain ⟨h1, -⟩ := List.append_eq_nil.mp h
  obtain ⟨h2, -⟩ := List.append_eq_nil.mp h1
  exact hne h2

theorem clamp_proj_le (px py A B S dt tt : ℚ) (hS : 0 < S)
    (hSe : S = A * A + B * B) (hdt : dt = px * A + py * B)
    (htt0 : 0 ≤ tt) (httd : tt * S ≤ dt) :
    (px - A * tt) * (px - A * tt) + (py - B * tt) * (py - B * tt) ≤
      px * px + py * py := by
  have h1 : tt * (tt * S) ≤ tt * dt := mul_le_mul_of_nonneg_left httd htt0
  have h2 : 0 ≤ tt * dt :=
    mul_nonneg htt0 (le_trans (mul_nonneg htt0 (le_of_lt hS)) httd)
  subst hSe
  subst hdt
  nlinarith [h1, h2]

/-- Membership of a point on the closed segment from a to b, in parametric
    form. -/
def OnSeg (r a b : Point) : Prop :=
  ∃ u : ℚ, 0 ≤ u ∧ u ≤ 1 ∧
    r.x = a.x + (b.x - a.x) * u ∧ r.y = a.y + (b.y - a.y) * u

/-- Membership on the boundary of a polygon: on some edge of the outer ring
    or of one of the hole rings. -/
def OnPolyBoundary (poly : Polygon) (r : Point) : Prop :=
  (∃ e ∈ ringEdges poly.points, OnSeg r e.1 e.2) ∨
  (∃ h ∈ poly.holes, ∃ e ∈ ringEdges h, OnSeg r e.1 e.2)

theorem onSeg_left (a b : Point) : OnSeg a a b :=
  ⟨0, le_refl 0, zero_le_one, by ring, by ring⟩

theorem onSeg_closest (t a b : Point) : OnSeg (closestPointOnSegment t a b) a b := by
  simp only [closestPointOnSegment]
  split_ifs with h0
  · exact onSeg_left a b
  · exact ⟨_, le_max_left 0 _, max_le zero_le_one (min_le_left _ _), rfl, rfl⟩

theorem closestPointOnSegment_dist_le (t a b : Point) :
    getDistanceSquared t (closestPointOnSegment t a b) ≤
      getDistanceSquared t a := by
  simp only [closestPointOnSegment, getDistanceSquared]
  split_ifs with h0
  · exact le_refl _
  · set A := b.x - a.x with hA
    set B := b.y - a.y with hB
    have hS : 0 < A * A + B * B :=
      lt_of_le_of_ne (add_nonneg (mul_self_nonneg A) (mul_self_nonneg B))
        (Ne.symm h0)
    set q := min 1 (((t.x - a.x) * A + (t.y - a.y) * B) / (A * A + B * B)) with hq
    rcases le_total q 0 with hq0 | hq0
    · rw [max_eq_left hq0]
      simp only [mul_zero, add_zero]
      exact le_refl _
    · rw [max_eq_right hq0]
      have httd : q * (A * A + B * B) ≤ (t.x - a.x) * A + (t.y - a.y) * B := by
        rw [← le_div_iff₀ hS]
        exact min_le_right _ _
      have h2 := clamp_proj_le (t.x - a.x) (t.y - a.y) A B (A * A + B * B)
        ((t.x - a.x) * A + (t.y - a.y) * B) q hS rfl rfl hq0 httd
      calc (t.x - (a.x + A * q)) * (t.x - (a.x + A * q)) +
            (t.y - (a.y + B * q)) * (t.y - (a.y + B * q))
          = ((t.x - a.x) - A * q) * ((t.x - a.x) - A * q) +
            ((t.y - a.y) - B * q) * ((t.y - a.y) - B * q) := by ring
        _ ≤ (t.x - a.x) * (t.x - a.x) + (t.y - a.y) * (t.y - a.y) := h2

theorem mem_ringEdges_fst (pts : List Point) (v : Point) (hv : v ∈ pts) :
    ∃ e ∈ ringEdges pts, e.1 = v := by
  obtain ⟨i, hi, hvi⟩ := List.mem_iff_getElem.mp hv
  refine ⟨(pts.getD i ⟨0, 0⟩, pts.getD ((i + 1) % pts.length) ⟨0, 0⟩), ?_, ?_⟩
  · exact List.mem_map.mpr ⟨i, List.mem_range.mpr hi, rfl⟩
  · rw [List.getD_eq_getElem _ _ hi]
    exact hvi

/-- The candidate set as worded by the spec's closest-boundary description:
    every vertex of the polygon and of each of its holes, and the closest
    point on every outer-ring and hole-ring edge.  Stated from the spec's
    words for comparison with closestCandidates, which does not enumerate
    the hole vertices themselves. -/
def closestCandidatesSpec (target : Point) (poly : Polygon) : List Point :=
  poly.points ++ poly.holes.flatMap id
    ++ (ringEdges poly.points).map (fun e => closestPointOnSegment target e.1 e.2)
    ++ poly.holes.flatMap (fun h =>
        (ringEdges h).map (fun e => closestPointOnSegment target e.1 e.2))

/-- C3: in closest-boundary mode with a non-degenerate owning polygon, the
    goal projector returns a point of the spec's candidate set (polygon and
    hole vertices plus closest points on every outer and hole edge) that
    minimises squared distance to the goal over that whole set, and the
    returned point lies on the polygon's boundary. -/
theorem findClosestPointInPolygon_spec (t : Point) (poly : Polygon)
    (hne : poly.points ≠ []) :
    findClosestPointInPolygon t poly ∈ closestCandidatesSpec t poly ∧
    (∀ c ∈ closestCandidatesSpec t poly,
      getDistanceSquared t (findClosestPointInPolygon t poly) ≤
        getDistanceSquared t c) ∧
    OnPolyBoundary poly (findClosestPointInPolygon t poly) := by
  have hmem := findClosestPointInPolygon_mem_code t poly hne
  have hmin := findClosestPointInPolygon_min_code t poly
  have hmem' := hmem
  unfold closestCandidates at hmem'
  rw [List.mem_append, List.mem_append] at hmem'
  refine ⟨?_, ?_, ?_⟩
  · unfold closestCandidatesSpec
    rw [List.mem_append, List.mem_append, List.mem_append]
    rcases hmem' with (h | h) | h
    · exact Or.inl (Or.inl (Or.inl h))
    · exact Or.inl (Or.inr h)
    · exact Or.inr h
  · intro c hc
    unfold closestCandidatesSpec at hc
    rw [List.mem_append, List.mem_append, List.mem_append] at hc
    rcases hc with ((h | h) | h) | h
    · refine hmin c ?_
      unfold closestCandidates
      rw [List.mem_append, List.mem_append]
      exact Or.inl (Or.inl h)
    · rw [List.mem_flatMap] at h
      obtain ⟨hh, hhh, hch⟩ := h
      simp only [id_eq] at hch
      obtain ⟨e, he, he1⟩ := mem_ringEdges_fst hh c hch
      have hw : closestPointOnSegment t e.1 e.2 ∈ closestCandidates t poly := by
        unfold closestCandidates
        rw [List.mem_append]
        right
        rw [List.mem_flatMap]
        exact ⟨hh, hhh, List.mem_map.mpr ⟨e, he, rfl⟩⟩
      calc getDistanceSquared t (findClosestPointInPolygon t poly)
          ≤ getDistanceSquared t (closestPointOnSegment t e.1 e.2) := hmin _ hw
        _ ≤ getDistanceSquared t e.1 := closestPointOnSegment_dist_le t e.1 e.2
        _ = getDistanceSquared t c := by rw [he1]
    · refine hmin c ?_
      unfold closestCandidates
      rw [List.mem_append, List.mem_append]
      exact Or.inl (Or.inr h)
    · refine hmin c ?_
      unfold closestCandidates
      rw [List.mem_append]
      exact Or.inr h
  · rcases hmem' with (h | h) | h
    · obtain ⟨e, he, he1⟩ := mem_ringEdges_fst poly.points _ h
      refine Or.inl ⟨e, he, ?_⟩
      rw [he1]
      exact onSeg_left _ e.2
    · rw [List.mem_map] at h
      obtain ⟨e, he, her⟩ := h
      refine Or.inl ⟨e, he, ?_⟩
      rw [← her]
      exact onSeg_closest t e.1 e.2
    · rw [List.mem_flatMap] at h
      obtain ⟨hh, hhh, hch⟩ := h
      rw [List.mem_map] at hch
      obtain ⟨e, he, her⟩ := hch
      refine Or.inr ⟨hh, hhh, e, he, ?_⟩
      rw [← her]
      exact onSeg_closest t e.1 e.2

theorem findClosestPointInPolygon_spec_witness :
    sqPoly.points ≠ [] ∧
    (findClosestPointInPolygon ⟨60, 20⟩ sqPoly ∈
        closestCandidatesSpec ⟨60, 20⟩ sqPoly ∧
      (∀ c ∈ closestCandidatesSpec ⟨60, 20⟩ sqPoly,
        getDistanceSquared ⟨60, 20⟩ (findClosestPointInPolygon ⟨60, 20⟩ sqPoly) ≤
          getDistanceSquared ⟨60, 20⟩ c) ∧
      OnPolyBoundary sqPoly (findClosestPointInPolygon ⟨60, 20⟩ sqPoly)) :=
  ⟨by simp [sqPoly], findClosestPointInPolygon_spec ⟨60, 20⟩ sqPoly (by simp [sqPoly])⟩
